import Mathlib

/-!
# Verification of the WaveClip sample/cut-line engine (`src/WaveClip.cpp`)

A shallow embedding of the WaveClip subsystem of this repository.  Times and
sample values are embedded as rationals (the C++ code uses `double`/`float`;
the algorithms are exact arithmetic plus `floor`, which `ℚ` models exactly),
sample counts as integers (`sampleCount` is a 64-bit signed integer), and a
`Sequence`'s sample store as a `List ℚ`.

The `Sequence`, `Envelope`, resampler and progress-dialog collaborators are
external to `src/` (only `WaveClip.cpp` is present); their operations are
modelled from the specification's abstracted contract (spec §2, §4.3, §6).
Everything in namespace `WaveClip` below is translated directly from
`src/src/WaveClip.cpp`.
-/

set_option linter.unusedVariables false

namespace Audacity

/-! ## Sequence: the sample-domain storage collaborator (spec §4.3) -/

namespace Sequence

/-- Modelled from the spec: `Sequence::Copy(s0, s1)` returns a fresh sequence
holding the samples of the half-open range `[s0, s1)`
("Copy(start,len)->newSequenceHandle", spec §6). -/
def Copy (s : List ℚ) (s0 s1 : ℤ) : List ℚ :=
  (s.take s1.toNat).drop s0.toNat

/-- Modelled from the spec: `Sequence::Delete(start, len)` "removes and
relinks the block array, no gaps" (spec §4.3): samples
`[start, start+len)` disappear and the remainder closes up. -/
def Delete (s : List ℚ) (start len : ℤ) : List ℚ :=
  s.take start.toNat ++ s.drop (start + len).toNat

/-- Modelled from the spec: `Sequence::Paste(pos, otherSequence)` "splices
another sequence's blocks in" (spec §4.3) at sample position `pos`. -/
def Paste (s : List ℚ) (pos : ℤ) (other : List ℚ) : List ℚ :=
  s.take pos.toNat ++ other ++ s.drop pos.toNat

/-- Modelled from the spec: `Sequence::GetMinMax` "scans over the block
array" (spec §4.3) returning the minimum and maximum sample of the range
`[start, start+len)`.  An empty range yields `(0, 0)`. -/
def GetMinMax (s : List ℚ) (start len : ℤ) : ℚ × ℚ :=
  match (s.drop start.toNat).take len.toNat with
  | [] => (0, 0)
  | x :: xs => (xs.foldl min x, xs.foldl max x)

/-- Modelled from the spec: `Sequence::GetRMS` scans the range
`[start, start+len)` (spec §4.3).  The model returns the mean square of the
range (the real code takes its square root, which is irrational in general;
the claims only concern the delegation, for which the mean square is a
faithful stand-in).  An empty range yields `0`. -/
def GetRMS (s : List ℚ) (start len : ℤ) : ℚ :=
  let slice := (s.drop start.toNat).take len.toNat
  if slice.length = 0 then 0
  else (slice.foldl (fun acc x => acc + x * x) 0) / slice.length

end Sequence

/-! ## The WaveClip data model

`WaveClip` wraps one `Sequence`, a track-time `offset`, an integer sample
`rate`, the bounded append buffer, the recursive list of cut-line sub-clips
and the display `colourIndex` (`WaveClip.cpp` fields `mOffset`, `mRate`,
`mSequence`, `mAppendBuffer`/`mAppendBufferLen`, `mCutLines`,
`mColourIndex`).  The `Envelope` is an external collaborator; the model
records the envelope-affecting calls only where a claim needs them. -/

/-- The error conditions WaveClip operations signal (spec §7):
inconsistency errors (`THROW_INCONSISTENCY_EXCEPTION`), the silent
user-cancellation error (`UserException`), and message-carrying
user-visible failures (`SimpleMessageBoxException`). -/
inductive AudacityError : Type where
  | inconsistency : AudacityError
  | userCancelled : AudacityError
  | message (text : String) : AudacityError
deriving DecidableEq

inductive WaveClip : Type where
  | mk (offset : ℚ) (rate : ℤ) (seqData : List ℚ) (appendBuf : List ℚ)
       (cuts : List WaveClip) (colour : ℤ) : WaveClip

namespace WaveClip

/-- Field `mOffset`: the clip's start time on the track timeline. -/
def offset : WaveClip → ℚ
  | .mk o _ _ _ _ _ => o

/-- Field `mRate`: integer samples/second. -/
def rate : WaveClip → ℤ
  | .mk _ r _ _ _ _ => r

/-- Field `mSequence`: the flushed sample store, as the list of its samples. -/
def sequence : WaveClip → List ℚ
  | .mk _ _ s _ _ _ => s

/-- Fields `mAppendBuffer`/`mAppendBufferLen`: the pending append buffer. -/
def appendBuffer : WaveClip → List ℚ
  | .mk _ _ _ a _ _ => a

/-- Field `mCutLines`: the owned cut-line sub-clips, in list order. -/
def cutLines : WaveClip → List WaveClip
  | .mk _ _ _ _ cs _ => cs

/-- Field `mColourIndex`. -/
def colourIndex : WaveClip → ℤ
  | .mk _ _ _ _ _ ci => ci

/-- Source `WaveClip::GetNumSamples`: `mSequence->GetNumSamples()`; the append
buffer is not included. -/
def GetNumSamples (c : WaveClip) : ℤ :=
  (c.sequence.length : ℤ)

/-- Field `mAppendBufferLen` as a sample count. -/
def appendBufferLen (c : WaveClip) : ℤ :=
  (c.appendBuffer.length : ℤ)

/-- Source `WaveClip::GetStartTime`: returns `mOffset`; "no clipping to 0". -/
def GetStartTime (c : WaveClip) : ℚ :=
  c.offset

/-- Source `WaveClip::GetEndTime`:
`mOffset + (numSamples + mAppendBufferLen).as_double() / mRate`. -/
def GetEndTime (c : WaveClip) : ℚ :=
  c.offset + ((c.GetNumSamples + c.appendBufferLen : ℤ) : ℚ) / (c.rate : ℚ)

/-- Source `WaveClip::GetStartSample`: `floor(mOffset * mRate + 0.5)`. -/
def GetStartSample (c : WaveClip) : ℤ :=
  ⌊c.offset * (c.rate : ℚ) + 1/2⌋

/-- Source `WaveClip::GetEndSample`: `GetStartSample() + mSequence->GetNumSamples()`. -/
def GetEndSample (c : WaveClip) : ℤ :=
  c.GetStartSample + c.GetNumSamples

/-- Source `WaveClip::WithinClip(t)`: with `ts = floor(t * mRate + 0.5)`,
`ts > GetStartSample() && ts < GetEndSample() + mAppendBufferLen`. -/
def WithinClip (c : WaveClip) (t : ℚ) : Bool :=
  let ts : ℤ := ⌊t * (c.rate : ℚ) + 1/2⌋
  decide (c.GetStartSample < ts ∧ ts < c.GetEndSample + c.appendBufferLen)

/-- Source `WaveClip::BeforeClip(t)`: `ts <= GetStartSample()`. -/
def BeforeClip (c : WaveClip) (t : ℚ) : Bool :=
  let ts : ℤ := ⌊t * (c.rate : ℚ) + 1/2⌋
  decide (ts ≤ c.GetStartSample)

/-- Source `WaveClip::AfterClip(t)`: `ts >= GetEndSample() + mAppendBufferLen`. -/
def AfterClip (c : WaveClip) (t : ℚ) : Bool :=
  let ts : ℤ := ⌊t * (c.rate : ℚ) + 1/2⌋
  decide (c.GetEndSample + c.appendBufferLen ≤ ts)

/-- Source `WaveClip::TimeToSamplesClip(t0, &s0)`: clamps times below the clip
start to `0` and above `offset + numSamples/rate` to `numSamples`, else
rounds via `floor((t0 - mOffset) * mRate + 0.5)`. -/
def TimeToSamplesClip (c : WaveClip) (t0 : ℚ) : ℤ :=
  if t0 < c.offset then 0
  else if t0 > c.offset + (c.GetNumSamples : ℚ) / (c.rate : ℚ) then
    c.GetNumSamples
  else ⌊(t0 - c.offset) * (c.rate : ℚ) + 1/2⌋

/-- Source `WaveClip::SetOffset(offset)`: sets `mOffset` (and keeps the external
envelope's offset in sync, which the model does not record). -/
def SetOffset : WaveClip → ℚ → WaveClip
  | .mk _ r s a cs ci, o => .mk o r s a cs ci

/-- Modelled from the spec: `WaveClip::Offset(delta)` is defined in the
clip's header, which is not under `src/`; per spec §3 ("every cut line's
absolute track-time position is `parent.offset + cutLine.offset`") and the
shift descriptions of §4.2, shifting a clip adds `delta` to its `offset`:
`SetOffset(GetOffset() + delta)`. -/
def Offset (c : WaveClip) (delta : ℚ) : WaveClip :=
  c.SetOffset (c.offset + delta)

/-- Source `WaveClip::SetColourIndex`. -/
def SetColourIndex : WaveClip → ℤ → WaveClip
  | .mk o r s a cs _, ci => .mk o r s a cs ci

/-- The absolute track-time positions of the clip's cut lines:
each is `parent.mOffset + cutline.GetOffset()` (spec §3 invariant). -/
def cutlinePositions (c : WaveClip) : List ℚ :=
  c.cutLines.map (fun cl => c.offset + cl.offset)

/-- Source `WaveClip::SharesBoundaryWithNextClip(next)`:
`endThis = GetRate() * GetOffset() + GetNumSamples()`,
`startNext = next->GetRate() * next->GetOffset()`, adjacency iff
`fabs(startNext - endThis) < 0.5`. -/
def SharesBoundaryWithNextClip (c next : WaveClip) : Bool :=
  let endThis : ℚ := (c.rate : ℚ) * c.offset + (c.GetNumSamples : ℚ)
  let startNext : ℚ := (next.rate : ℚ) * next.offset
  decide (|startNext - endThis| < 1/2)

/-- Source `WaveClip::GetMinMax(t0, t1, mayThrow)`: throws an inconsistency error
when `t0 > t1` (or returns the harmless `(0, 0)` when `mayThrow` is
false), returns `(0, 0)` for the degenerate range `t0 == t1`, and
otherwise delegates to `Sequence::GetMinMax(s0, s1 - s0)` over the
converted range.  The clip itself is read-only throughout (`const`). -/
def GetMinMax (c : WaveClip) (t0 t1 : ℚ) (mayThrow : Bool) :
    Except AudacityError (ℚ × ℚ) :=
  if t0 > t1 then
    if mayThrow then .error .inconsistency else .ok (0, 0)
  else if t0 = t1 then .ok (0, 0)
  else
    let s0 := c.TimeToSamplesClip t0
    let s1 := c.TimeToSamplesClip t1
    .ok (Sequence.GetMinMax c.sequence s0 (s1 - s0))

/-- Source `WaveClip::GetRMS(t0, t1, mayThrow)`: same contract as `GetMinMax`
with a scalar zero for the trivial cases, delegating to
`Sequence::GetRMS(s0, s1 - s0)`. -/
def GetRMS (c : WaveClip) (t0 t1 : ℚ) (mayThrow : Bool) :
    Except AudacityError ℚ :=
  if t0 > t1 then
    if mayThrow then .error .inconsistency else .ok 0
  else if t0 = t1 then .ok 0
  else
    let s0 := c.TimeToSamplesClip t0
    let s1 := c.TimeToSamplesClip t1
    .ok (Sequence.GetRMS c.sequence s0 (s1 - s0))

/-- The range-copy constructor
`WaveClip::WaveClip(orig, projDirManager, copyCutlines = true, t0, t1)`:
keeps `offset`, `rate` and `colourIndex`, copies the samples between the
converted positions of `t0` and `t1`, starts with an empty append buffer,
and copies exactly the cut lines whose absolute position lies in
`[t0, t1]`, re-based via `SetOffset(cutlinePosition - t0)`. -/
def copyRange (orig : WaveClip) (t0 t1 : ℚ) : WaveClip :=
  let s0 := orig.TimeToSamplesClip t0
  let s1 := orig.TimeToSamplesClip t1
  WaveClip.mk orig.offset orig.rate (Sequence.Copy orig.sequence s0 s1) []
    ((orig.cutLines.filter fun cl =>
        decide (t0 ≤ orig.offset + cl.offset ∧ orig.offset + cl.offset ≤ t1)).map
      fun cl => cl.SetOffset (orig.offset + cl.offset - t0))
    orig.colourIndex

/-- Source `WaveClip::OffsetCutLines(t0, len)`: shifts every cut line whose
absolute position is at or after `t0` by `len`. -/
def OffsetCutLines : WaveClip → ℚ → ℚ → WaveClip
  | .mk o r s a cs ci, t0, len =>
      .mk o r s a
        (cs.map fun cl => if t0 ≤ o + cl.offset then cl.Offset len else cl) ci

/-- Source `WaveClip::Paste(t0, other)`, for the case
`clipNeedsResampling = clipNeedsNewFormat = false` (the sample format is
uniform in the model, and every paste the claims exercise is at the
clip's own rate; in the mismatch case the source merely preprocesses a
private copy of `other` through the external resampler/format converter
and then performs this very same splice).  In source order: copies of
`other`'s cut lines are re-based by `Offset(t0 - mOffset)`; `other`'s
sequence (the append buffer is not included) is spliced in at the sample
position of `t0`; existing cut lines at/after `t0` are shifted right by
`other`'s duration via `OffsetCutLines`; the re-based copies are appended
at the end of the cut-line list. -/
def Paste (c : WaveClip) (t0 : ℚ) (other : WaveClip) : WaveClip :=
  let newCutlines := other.cutLines.map fun cl => cl.Offset (t0 - c.offset)
  let s0 := c.TimeToSamplesClip t0
  let cPasted := WaveClip.mk c.offset c.rate
    (Sequence.Paste c.sequence s0 other.sequence) c.appendBuffer c.cutLines
    c.colourIndex
  let cShifted :=
    cPasted.OffsetCutLines t0 (other.GetEndTime - other.GetStartTime)
  WaveClip.mk cShifted.offset cShifted.rate cShifted.sequence
    cShifted.appendBuffer (cShifted.cutLines ++ newCutlines)
    cShifted.colourIndex

/-- Source `WaveClip::Clear(t0, t1)`: deletes the converted sample range first;
then — in source order, so with `GetEndTime()` read *after* the deletion —
computes `clip_t0 = max(t0, GetStartTime())` and
`clip_t1 = min(t1, GetEndTime())`, erases the cut lines whose absolute
position lies in `[t0, t1]` and shifts those at/after `t1` by
`clip_t0 - clip_t1`, collapses the external envelope (outside the model),
and finally, if `t0 < GetStartTime()`, shifts the whole clip by
`-(GetStartTime() - t0)`. -/
def Clear (c : WaveClip) (t0 t1 : ℚ) : WaveClip :=
  let s0 := c.TimeToSamplesClip t0
  let s1 := c.TimeToSamplesClip t1
  let cDel := WaveClip.mk c.offset c.rate
    (Sequence.Delete c.sequence s0 (s1 - s0)) c.appendBuffer c.cutLines
    c.colourIndex
  let clip_t0 := max t0 cDel.GetStartTime
  let clip_t1 := min t1 cDel.GetEndTime
  let cuts :=
    (c.cutLines.filter fun cl =>
        !(decide (t0 ≤ c.offset + cl.offset ∧ c.offset + cl.offset ≤ t1))).map
      fun cl =>
        if t1 ≤ c.offset + cl.offset then cl.Offset (clip_t0 - clip_t1) else cl
  let cCuts := WaveClip.mk cDel.offset cDel.rate cDel.sequence
    cDel.appendBuffer cuts cDel.colourIndex
  if t0 < cCuts.GetStartTime then cCuts.Offset (-(cCuts.GetStartTime - t0))
  else cCuts

/-- Source `WaveClip::ClearAndAddCutLine(t0, t1)`: returns immediately when
`t0 > GetEndTime() || t1 < GetStartTime()`; otherwise snapshots
`[clip_t0, clip_t1]` (with `clip_t0 = max(t0, GetStartTime())`,
`clip_t1 = min(t1, GetEndTime())`, both read *before* the deletion) as a
new cut-line clip at offset `clip_t0 - mOffset`, erases/shifts the
existing cut lines exactly as `Clear` does (shift amount
`clip_t0 - clip_t1`), deletes the converted sample range, possibly shifts
the clip when `t0 < GetStartTime()`, and appends the snapshot to the
cut-line list.  The second component records whether `MarkChanged()`
fired (`false` exactly on the out-of-bounds early return). -/
def ClearAndAddCutLine (c : WaveClip) (t0 t1 : ℚ) : WaveClip × Bool :=
  if t0 > c.GetEndTime ∨ t1 < c.GetStartTime then (c, false)
  else
    let clip_t0 := max t0 c.GetStartTime
    let clip_t1 := min t1 c.GetEndTime
    let newClip := (c.copyRange clip_t0 clip_t1).SetOffset (clip_t0 - c.offset)
    let cuts :=
      (c.cutLines.filter fun cl =>
          !(decide (t0 ≤ c.offset + cl.offset ∧ c.offset + cl.offset ≤ t1))).map
        fun cl =>
          if t1 ≤ c.offset + cl.offset then cl.Offset (clip_t0 - clip_t1)
          else cl
    let s0 := c.TimeToSamplesClip t0
    let s1 := c.TimeToSamplesClip t1
    let c2 := WaveClip.mk c.offset c.rate
      (Sequence.Delete c.sequence s0 (s1 - s0)) c.appendBuffer cuts
      c.colourIndex
    let c3 := if t0 < c2.GetStartTime then c2.Offset (-(c2.GetStartTime - t0))
      else c2
    (WaveClip.mk c3.offset c3.rate c3.sequence c3.appendBuffer
      (c3.cutLines ++ [newClip]) c3.colourIndex, true)

/-- The `std::find_if` search of `WaveClip::ExpandCutLine` (and the
identical loops of `FindCutLine`/`RemoveCutLine`): the index of the first
cut line in the list whose absolute position (`parentOffset +
cutline->GetOffset()`) is within `0.0001` of `pos`. -/
def findCutlineIdx (parentOffset pos : ℚ) : List WaveClip → Option ℕ
  | [] => none
  | cl :: rest =>
    if |parentOffset + cl.offset - pos| < 1/10000 then some 0
    else (findCutlineIdx parentOffset pos rest).map (· + 1)

/-- Source `WaveClip::ExpandCutLine(cutLinePosition)`: finds the first cut line
whose absolute position is within `0.0001` of `cutLinePosition`; if one
exists, pastes its content back at its position via `Paste` and then
erases that cut line.  (The C++ re-finds the cut line by pointer identity
after the paste; `Paste` keeps the pre-existing cut lines at their list
indices and only appends new entries, so this is removal at the found
index.  The cut line's envelope offset is reset to `0` first, an
envelope-only effect outside the model.) -/
def ExpandCutLine (c : WaveClip) (cutLinePosition : ℚ) : WaveClip :=
  match findCutlineIdx c.offset cutLinePosition c.cutLines with
  | none => c
  | some i =>
    match c.cutLines.get? i with
    | none => c
    | some cutline =>
      let c1 := c.Paste (c.offset + cutline.offset) cutline
      WaveClip.mk c1.offset c1.rate c1.sequence c1.appendBuffer
        (c1.cutLines.eraseIdx i) c1.colourIndex

/-- The adjacency criterion as the specification words it (spec §3):
the two clips' "sample-domain end/start differ by less than half a sample
at the *higher clip's rate*" — both positions converted with the single
rate `max(this.rate, next.rate)`. -/
def specSharesBoundary (c next : WaveClip) : Bool :=
  let r : ℚ := (max c.rate next.rate : ℤ)
  decide (|next.offset * r - (c.offset * r + (c.GetNumSamples : ℚ))| < 1/2)

/-! ### Append and Flush (`WaveClip::Append`, `WaveClip::Flush`) -/

/-- The `Sequence` append configuration the clip consults:
`GetMaxBlockSize()` and `GetIdealAppendLen()`.  Modelled from the spec:
the real values depend on internal block bookkeeping (`Sequence.cpp` is
outside `src/`; spec §3 only says they "bound single-append efficiency"),
so the model abstracts `GetIdealAppendLen` as an arbitrary function of
the sequence's current length — it is re-read after every flushed
block. -/
structure SeqCfg where
  maxBlockSize : ℕ
  idealAppendLen : ℕ → ℕ

/-- The `for(;;)` loop of `WaveClip::Append`: the state is the flushed
sequence, the append buffer, the loop-carried `blockSize` (initially
`GetIdealAppendLen()`, re-read after each flush) and the remaining input.
One iteration flushes one full block into the sequence if
`mAppendBufferLen >= blockSize`, exits if no input remains, and otherwise
moves `toCopy = min(len, maxBlockSize - mAppendBufferLen)` samples from
the front of the input to the back of the buffer.  `fuel` bounds the
iteration count; `none` marks exhausted fuel (the C++ loop terminates
whenever `1 ≤ GetIdealAppendLen() ≤ GetMaxBlockSize()`, for which
`input.length + 1` iterations are proved sufficient below). -/
def appendLoop (cfg : SeqCfg) :
    ℕ → List ℚ → List ℚ → ℕ → List ℚ → Option (List ℚ × List ℚ)
  | 0, _, _, _, _ => none
  | fuel + 1, seqData, buf, blockSize, input =>
    match (if blockSize ≤ buf.length then
        (seqData ++ buf.take blockSize, buf.drop blockSize,
          cfg.idealAppendLen (seqData ++ buf.take blockSize).length)
      else (seqData, buf, blockSize)) with
    | (seqData', buf', blockSize') =>
      if input.isEmpty then some (seqData', buf')
      else
        let toCopy := min input.length (cfg.maxBlockSize - buf'.length)
        appendLoop cfg fuel seqData' (buf' ++ input.take toCopy) blockSize'
          (input.drop toCopy)

/-- Source `WaveClip::Append(buffer, format, len)` with stride 1 and matching
sample format: runs the append loop from the current sequence and buffer
with `blockSize = GetIdealAppendLen()`.  The trailing
`UpdateEnvelopeTrackLen()`/`MarkChanged()` cleanup only touches the
external envelope and listeners. -/
def Append (cfg : SeqCfg) (c : WaveClip) (input : List ℚ) :
    Option WaveClip :=
  match appendLoop cfg (input.length + 1) c.sequence c.appendBuffer
      (cfg.idealAppendLen c.sequence.length) input with
  | none => none
  | some (s, b) =>
      some (WaveClip.mk c.offset c.rate s b c.cutLines c.colourIndex)

/-- Iterated `WaveClip::Append`, one call per chunk. -/
def appendChunks (cfg : SeqCfg) : WaveClip → List (List ℚ) → Option WaveClip
  | c, [] => some c
  | c, chunk :: rest =>
    match Append cfg c chunk with
    | none => none
    | some c' => appendChunks cfg c' rest

/-- Source `WaveClip::Flush()`: if the append buffer is non-empty, its whole
content is appended to the sequence by `Sequence::Append` and the buffer
is emptied (the cleanup zeroes `mAppendBufferLen` even on failure; the
model covers the successful append). -/
def Flush (c : WaveClip) : WaveClip :=
  if 0 < c.appendBuffer.length then
    WaveClip.mk c.offset c.rate (c.sequence ++ c.appendBuffer) []
      c.cutLines c.colourIndex
  else c

/-! ### Resample (`WaveClip::Resample`) -/

/-- The external progress dialog's verdict (spec §6:
`Update(current, total) -> Success | Cancelled | Failed`). -/
inductive ProgressResult : Type where
  | Success : ProgressResult
  | Cancelled : ProgressResult
  | Failed : ProgressResult
deriving DecidableEq

/-- One iteration's worth of external-collaborator behaviour inside
`WaveClip::Resample`'s loop: whether `Sequence::Get` succeeded, the
resampler `Process` results (`consumed` = `results.first`, `produced` =
`results.second`, negative meaning failure) together with the samples it
produced, and the progress dialog's verdict.  The resampler and dialog
are stateful external oracles, so the model indexes them by the
iteration counter. -/
structure ResampleStep where
  readOk : Bool
  consumed : ℕ
  produced : ℤ
  out : List ℚ
  progressUpdate : ProgressResult

/-- The possible exits of the resampling loop. -/
inductive ResampleOutcome : Type where
  | done (newSeq : List ℚ) : ResampleOutcome
  | cancelledExit : ResampleOutcome
  | failedExit : ResampleOutcome
  | outOfFuel : ResampleOutcome

/-- The `while (pos < numSamples || outGenerated > 0)` loop of
`WaveClip::Resample`, driven by the per-iteration oracle `step`.  Inside
the loop only the local `newSequence` is accumulated: a failed
`Sequence::Get` or a negative `Process` result breaks with the error flag
set (the source then throws the "Resampling failed." message after the
loop), and, when a progress dialog is present, any non-`Success` update
throws `UserException` on the spot.  No clip field is mutated inside the
loop. -/
def resampleLoop (numSamples : ℤ) (step : ℕ → ResampleStep)
    (hasProgress : Bool) :
    ℕ → ℤ → ℤ → List ℚ → ℕ → ResampleOutcome
  | 0, _, _, _, _ => .outOfFuel
  | fuel + 1, pos, outGenerated, newSeq, i =>
    if pos < numSamples ∨ 0 < outGenerated then
      let st := step i
      if !st.readOk then .failedExit
      else if st.produced < 0 then .failedExit
      else
        let newSeq' := newSeq ++ st.out.take st.produced.toNat
        if hasProgress ∧ st.progressUpdate ≠ .Success then .cancelledExit
        else
          resampleLoop numSamples step hasProgress fuel (pos + st.consumed)
            st.produced newSeq' (i + 1)
    else .done newSeq

/-- Source `WaveClip::Resample(rate, progress)`: returns unchanged when the
target rate already equals `mRate`; otherwise streams the sequence
through the external resampler into a freshly built sequence (the loop
above) and only on full success installs the new sequence and rate
(`mSequence = std::move(newSequence); mRate = rate`).  A thrown error is
modelled as `.error` carrying the clip state at the throw point — the
loop never mutates the clip, so that state is the receiver itself.
`none` models exhausted loop fuel. -/
def Resample (c : WaveClip) (newRate : ℤ) (step : ℕ → ResampleStep)
    (hasProgress : Bool) (fuel : ℕ) :
    Option (Except (AudacityError × WaveClip) WaveClip) :=
  if newRate = c.rate then some (.ok c)
  else
    match resampleLoop c.GetNumSamples step hasProgress fuel 0 0 [] 0 with
    | .outOfFuel => none
    | .cancelledExit => some (.error (.userCancelled, c))
    | .failedExit => some (.error (.message "Resampling failed.", c))
    | .done newSeq =>
        some (.ok (WaveClip.mk c.offset newRate newSeq c.appendBuffer
          c.cutLines c.colourIndex))

/-! ### XML round-trip handlers (`WaveClip::HandleXML*`) -/

/-- The outcome of validating one XML attribute string through the
external validators: `XMLValueChecker::IsGoodString` plus
`Internat::CompatibleToDouble` (`asDouble`) and `IsGoodString` plus
`wxString::ToLong` (`asLong`); `none` when validation fails. -/
structure AttrValue where
  asDouble : Option ℚ
  asLong : Option ℤ

/-- The attribute loop of `WaveClip::HandleXMLTag`: an `offset` attribute
must validate as a double — otherwise the whole tag is rejected
(`return false`, here `none`) — and is applied via `SetOffset`; a
`colorindex` attribute must validate as a long and is applied via
`SetColourIndex`; any other attribute is skipped. -/
def applyXMLAttrs : WaveClip → List (String × AttrValue) → Option WaveClip
  | c, [] => some c
  | c, (attr, value) :: rest =>
    if attr = "offset" then
      match value.asDouble with
      | none => none
      | some d => applyXMLAttrs (c.SetOffset d) rest
    else if attr = "colorindex" then
      match value.asLong with
      | none => none
      | some k => applyXMLAttrs (c.SetColourIndex k) rest
    else applyXMLAttrs c rest

/-- Source `WaveClip::HandleXMLTag(tag, attrs)`: processes only `waveclip` tags
(`none` models returning `false`). -/
def HandleXMLTag (c : WaveClip) (tag : String)
    (attrs : List (String × AttrValue)) : Option WaveClip :=
  if tag = "waveclip" then applyXMLAttrs c attrs else none

/-- Which handler `WaveClip::HandleXMLChild` returns for a child
element. -/
inductive XMLChildTarget : Type where
  | sequenceChild : XMLChildTarget
  | envelopeChild : XMLChildTarget
  | cutline (index : ℕ) : XMLChildTarget
deriving DecidableEq

/-- Source `WaveClip::HandleXMLChild(tag)`: `sequence` and `envelope` children go
to the owned collaborators; a nested `waveclip` appends a brand-new cut
line (a fresh clip at the parent's rate, colour index 0, default offset
0, empty sequence) to `mCutLines` and hands the child subtree to it;
anything else returns `NULL` (`none`). -/
def HandleXMLChild (c : WaveClip) (tag : String) :
    Option (WaveClip × XMLChildTarget) :=
  if tag = "sequence" then some (c, .sequenceChild)
  else if tag = "envelope" then some (c, .envelopeChild)
  else if tag = "waveclip" then
    some (WaveClip.mk c.offset c.rate c.sequence c.appendBuffer
      (c.cutLines ++ [WaveClip.mk 0 c.rate [] [] [] 0]) c.colourIndex,
      .cutline c.cutLines.length)
  else none

/-- Source `WaveClip::HandleXMLEndTag(tag)`: on the closing `waveclip` tag the
source calls `UpdateEnvelopeTrackLen()`, i.e.
`mEnvelope->SetTrackLen(mSequence->GetNumSamples() / mRate, 1/GetRate())`.
The envelope is external, so the model returns the recomputed track
length handed to it (`none` for any other tag, where nothing happens). -/
def HandleXMLEndTag (c : WaveClip) (tag : String) : Option ℚ :=
  if tag = "waveclip" then some ((c.GetNumSamples : ℚ) / (c.rate : ℚ))
  else none

end WaveClip

/-! ## Concrete clips used as counterexample and witness inputs -/

/-- A 4-sample clip at rate 1 carrying one pre-existing cut line placed
0.00005 s before the time 1/2 (within `ExpandCutLine`'s 0.0001
tolerance). -/
def c2clip : WaveClip :=
  .mk 0 1 [1, 2, 3, 4] [] [.mk (9999/20000) 1 [9] [] [] 0] 0

/-- A 10-sample clip at rate 1 with one cut line at absolute position 8. -/
def c4clip : WaveClip :=
  .mk 0 1 [0, 0, 0, 0, 0, 0, 0, 0, 0, 0] [] [.mk 8 1 [1] [] [] 0] 0

/-! ## Helper lemmas about the time/sample conversions -/

namespace WaveClip

@[simp] theorem offset_mk (o : ℚ) (r : ℤ) (s a : List ℚ) (cs : List WaveClip)
    (ci : ℤ) : offset (.mk o r s a cs ci) = o := rfl

@[simp] theorem rate_mk (o : ℚ) (r : ℤ) (s a : List ℚ) (cs : List WaveClip)
    (ci : ℤ) : rate (.mk o r s a cs ci) = r := rfl

@[simp] theorem sequence_mk (o : ℚ) (r : ℤ) (s a : List ℚ)
    (cs : List WaveClip) (ci : ℤ) : sequence (.mk o r s a cs ci) = s := rfl

@[simp] theorem appendBuffer_mk (o : ℚ) (r : ℤ) (s a : List ℚ)
    (cs : List WaveClip) (ci : ℤ) : appendBuffer (.mk o r s a cs ci) = a := rfl

@[simp] theorem cutLines_mk (o : ℚ) (r : ℤ) (s a : List ℚ)
    (cs : List WaveClip) (ci : ℤ) : cutLines (.mk o r s a cs ci) = cs := rfl

@[simp] theorem colourIndex_mk (o : ℚ) (r : ℤ) (s a : List ℚ)
    (cs : List WaveClip) (ci : ℤ) : colourIndex (.mk o r s a cs ci) = ci := rfl

@[simp] theorem offset_SetOffset (c : WaveClip) (o : ℚ) :
    (c.SetOffset o).offset = o := by cases c; rfl

@[simp] theorem rate_SetOffset (c : WaveClip) (o : ℚ) :
    (c.SetOffset o).rate = c.rate := by cases c; rfl

@[simp] theorem sequence_SetOffset (c : WaveClip) (o : ℚ) :
    (c.SetOffset o).sequence = c.sequence := by cases c; rfl

@[simp] theorem appendBuffer_SetOffset (c : WaveClip) (o : ℚ) :
    (c.SetOffset o).appendBuffer = c.appendBuffer := by cases c; rfl

@[simp] theorem cutLines_SetOffset (c : WaveClip) (o : ℚ) :
    (c.SetOffset o).cutLines = c.cutLines := by cases c; rfl

@[simp] theorem offset_Offset (c : WaveClip) (d : ℚ) :
    (c.Offset d).offset = c.offset + d := by cases c; rfl

theorem rate_cast_pos (c : WaveClip) (h : 1 ≤ c.rate) :
    (0:ℚ) < (c.rate : ℚ) := by
  have : (0:ℤ) < c.rate := by omega
  exact_mod_cast this

theorem numSamples_nonneg (c : WaveClip) : 0 ≤ c.GetNumSamples :=
  Int.natCast_nonneg _

theorem appendBufferLen_nonneg (c : WaveClip) : 0 ≤ c.appendBufferLen :=
  Int.natCast_nonneg _

/-- Conversion `TimeToSamplesClip` never returns a negative sample index. -/
theorem tts_nonneg (c : WaveClip) (t : ℚ) (h : 1 ≤ c.rate) :
    0 ≤ c.TimeToSamplesClip t := by
  have hr := c.rate_cast_pos h
  unfold TimeToSamplesClip
  by_cases h1 : t < c.offset
  · rw [if_pos h1]
  · rw [if_neg h1]
    by_cases h2 : t > c.offset + (c.GetNumSamples : ℚ) / (c.rate : ℚ)
    · rw [if_pos h2]; exact c.numSamples_nonneg
    · rw [if_neg h2, Int.le_floor]
      push_neg at h1
      have : 0 ≤ (t - c.offset) * (c.rate : ℚ) :=
        mul_nonneg (by linarith) hr.le
      push_cast
      linarith

/-- Conversion `TimeToSamplesClip` never exceeds the sequence's sample count. -/
theorem tts_le_numSamples (c : WaveClip) (t : ℚ) (h : 1 ≤ c.rate) :
    c.TimeToSamplesClip t ≤ c.GetNumSamples := by
  have hr := c.rate_cast_pos h
  unfold TimeToSamplesClip
  by_cases h1 : t < c.offset
  · rw [if_pos h1]; exact c.numSamples_nonneg
  · rw [if_neg h1]
    by_cases h2 : t > c.offset + (c.GetNumSamples : ℚ) / (c.rate : ℚ)
    · rw [if_pos h2]
    · rw [if_neg h2]
      have hb : t - c.offset ≤ (c.GetNumSamples : ℚ) / (c.rate : ℚ) := by
        push_neg at h2; linarith
      have hb' : (t - c.offset) * (c.rate : ℚ) ≤ (c.GetNumSamples : ℚ) := by
        rw [← le_div_iff₀ hr]; exact hb
      have hlt : ⌊(t - c.offset) * (c.rate : ℚ) + 1/2⌋ < c.GetNumSamples + 1 := by
        rw [Int.floor_lt]
        push_cast
        linarith
      omega

/-- Conversion `TimeToSamplesClip` is monotone in the time argument. -/
theorem tts_mono (c : WaveClip) (t t' : ℚ) (h : 1 ≤ c.rate) (htt : t ≤ t') :
    c.TimeToSamplesClip t ≤ c.TimeToSamplesClip t' := by
  have hr := c.rate_cast_pos h
  by_cases h1' : t' < c.offset
  · have h1 : t < c.offset := lt_of_le_of_lt htt h1'
    unfold TimeToSamplesClip
    rw [if_pos h1, if_pos h1']
  · by_cases h2' : t' > c.offset + (c.GetNumSamples : ℚ) / (c.rate : ℚ)
    · have := c.tts_le_numSamples t h
      unfold TimeToSamplesClip
      rw [if_neg h1', if_pos h2']
      exact le_trans (c.tts_le_numSamples t h) (le_refl _)
    · by_cases h1 : t < c.offset
      · have := c.tts_nonneg t' h
        unfold TimeToSamplesClip at this ⊢
        rw [if_pos h1]
        exact this
      · have h2 : ¬ t > c.offset + (c.GetNumSamples : ℚ) / (c.rate : ℚ) := by
          push_neg at h2' ⊢; linarith
        unfold TimeToSamplesClip
        rw [if_neg h1, if_neg h2, if_neg h1', if_neg h2']
        apply Int.floor_le_floor
        have : (t - c.offset) * (c.rate : ℚ) ≤ (t' - c.offset) * (c.rate : ℚ) :=
          mul_le_mul_of_nonneg_right (by linarith) hr.le
        linarith

end WaveClip

/-! ## C6: TimeToSamplesClip boundary idempotence -/

/-- C6 (confirmed): for every clip with `rate ≥ 1`,
`TimeToSamplesClip(GetStartTime()) == 0` and
`TimeToSamplesClip(GetEndTime()) == numSamples` (the Sequence's sample
count; `GetEndTime()` includes the pending append buffer, and the clamp
to `numSamples` makes the identity hold whether or not that buffer is
empty). -/
theorem timeToSamplesClip_boundary_idempotence (c : WaveClip) (h : 1 ≤ c.rate) :
    c.TimeToSamplesClip c.GetStartTime = 0 ∧
    c.TimeToSamplesClip c.GetEndTime = c.GetNumSamples := by
  have hr := c.rate_cast_pos h
  have hn : (0:ℚ) ≤ (c.GetNumSamples : ℚ) := by
    exact_mod_cast c.numSamples_nonneg
  have ha : (0:ℚ) ≤ (c.appendBufferLen : ℚ) := by
    exact_mod_cast c.appendBufferLen_nonneg
  have hdiv : (0:ℚ) ≤ (c.GetNumSamples : ℚ) / (c.rate : ℚ) := div_nonneg hn hr.le
  have hcast : (((c.GetNumSamples + c.appendBufferLen : ℤ)) : ℚ)
      = (c.GetNumSamples : ℚ) + (c.appendBufferLen : ℚ) := by push_cast; ring
  constructor
  · unfold WaveClip.TimeToSamplesClip WaveClip.GetStartTime
    rw [if_neg (lt_irrefl _), if_neg (by push_neg; linarith), sub_self,
      zero_mul, zero_add]
    norm_num
  · unfold WaveClip.TimeToSamplesClip WaveClip.GetEndTime
    have hq : (0:ℚ) ≤ (((c.GetNumSamples + c.appendBufferLen : ℤ)) : ℚ) / (c.rate : ℚ) := by
      rw [hcast]; exact div_nonneg (by linarith) hr.le
    rw [if_neg (by push_neg; linarith)]
    by_cases hA : (0:ℚ) < (c.appendBufferLen : ℚ)
    · rw [if_pos]
      rw [gt_iff_lt, add_lt_add_iff_left, hcast, div_lt_div_iff_of_pos_right hr]
      linarith
    · have ha0 : (c.appendBufferLen : ℚ) = 0 := le_antisymm (not_lt.mp hA) ha
      rw [if_neg (by rw [hcast, ha0, add_zero]; push_neg; exact le_refl _),
        hcast, ha0, add_zero, add_sub_cancel_left,
        div_mul_cancel₀ _ (ne_of_gt hr), add_comm, Int.floor_add_int]
      norm_num

/-- Witness for C6 at a concrete 3-sample clip at rate 2 with one pending
append-buffer sample. -/
theorem timeToSamplesClip_boundary_idempotence_witness :
    (1 : ℤ) ≤ (WaveClip.mk 5 2 [1, 2, 3] [4] [] 0).rate ∧
    (WaveClip.mk 5 2 [1, 2, 3] [4] [] 0).TimeToSamplesClip
      (WaveClip.mk 5 2 [1, 2, 3] [4] [] 0).GetStartTime = 0 ∧
    (WaveClip.mk 5 2 [1, 2, 3] [4] [] 0).TimeToSamplesClip
      (WaveClip.mk 5 2 [1, 2, 3] [4] [] 0).GetEndTime =
      (WaveClip.mk 5 2 [1, 2, 3] [4] [] 0).GetNumSamples :=
  ⟨by decide, timeToSamplesClip_boundary_idempotence _ (by decide)⟩

/-! ## C10: ClearAndAddCutLine out-of-bounds no-op -/

/-- C10 (confirmed): if `t0 > GetEndTime()` or `t1 < GetStartTime()`,
`ClearAndAddCutLine(t0, t1)` returns immediately leaving the clip
completely unchanged — no samples deleted, no cut line added, removed or
shifted, no offset change — and fires no `MarkChanged` notification
(the `false` component). -/
theorem clearAndAddCutLine_out_of_bounds_noop (c : WaveClip) (t0 t1 : ℚ)
    (h : t0 > c.GetEndTime ∨ t1 < c.GetStartTime) :
    c.ClearAndAddCutLine t0 t1 = (c, false) := by
  unfold WaveClip.ClearAndAddCutLine
  rw [if_pos h]

/-- Witness for C10: a 1-sample clip and a range strictly beyond its end. -/
theorem clearAndAddCutLine_out_of_bounds_noop_witness :
    ((5:ℚ) > (WaveClip.mk 0 1 [1] [] [] 0).GetEndTime ∨
      (6:ℚ) < (WaveClip.mk 0 1 [1] [] [] 0).GetStartTime) ∧
    (WaveClip.mk 0 1 [1] [] [] 0).ClearAndAddCutLine 5 6 =
      (WaveClip.mk 0 1 [1] [] [] 0, false) :=
  ⟨Or.inl (by with_unfolding_all decide),
    clearAndAddCutLine_out_of_bounds_noop _ 5 6
      (Or.inl (by with_unfolding_all decide))⟩

/-! ## C9: boundary-predicate trichotomy -/

/-- C9 (confirmed): for a clip with at least one total sample (sequence
plus append buffer), exactly one of `BeforeClip(t)`, `WithinClip(t)`,
`AfterClip(t)` holds at every time; for a clip with zero total samples,
`WithinClip` is everywhere false while `BeforeClip` and `AfterClip` both
hold at the boundary sample, so the predicates are not mutually exclusive
there. -/
theorem boundary_predicate_trichotomy (c : WaveClip) (t : ℚ) (h : 1 ≤ c.rate) :
    (1 ≤ c.GetNumSamples + c.appendBufferLen →
      ((c.BeforeClip t = true ∧ c.WithinClip t = false ∧ c.AfterClip t = false) ∨
       (c.BeforeClip t = false ∧ c.WithinClip t = true ∧ c.AfterClip t = false) ∨
       (c.BeforeClip t = false ∧ c.WithinClip t = false ∧ c.AfterClip t = true))) ∧
    (c.GetNumSamples + c.appendBufferLen = 0 →
      (∀ u : ℚ, c.WithinClip u = false) ∧
      c.BeforeClip ((c.GetStartSample : ℚ) / (c.rate : ℚ)) = true ∧
      c.AfterClip ((c.GetStartSample : ℚ) / (c.rate : ℚ)) = true) := by
  have hr := c.rate_cast_pos h
  have hn0 := c.numSamples_nonneg
  have ha0 := c.appendBufferLen_nonneg
  have hfloor : ⌊((c.GetStartSample : ℚ) / (c.rate : ℚ)) * (c.rate : ℚ) + 1/2⌋
      = c.GetStartSample := by
    rw [div_mul_cancel₀ _ (ne_of_gt hr), add_comm, Int.floor_add_int]
    norm_num
  constructor
  · intro hn
    simp only [WaveClip.BeforeClip, WaveClip.WithinClip, WaveClip.AfterClip,
      WaveClip.GetEndSample, decide_eq_true_eq, decide_eq_false_iff_not,
      not_and, not_lt, not_le]
    omega
  · intro h0
    refine ⟨fun u => ?_, ?_, ?_⟩
    · simp only [WaveClip.WithinClip, WaveClip.GetEndSample,
        decide_eq_false_iff_not, not_and, not_lt]
      intro hlt
      omega
    · simp only [WaveClip.BeforeClip, decide_eq_true_eq]
      rw [hfloor]
    · simp only [WaveClip.AfterClip, WaveClip.GetEndSample, decide_eq_true_eq]
      rw [hfloor]
      omega

/-- Witness for C9 at a 2-sample clip (non-degenerate case) — the
hypotheses of the trichotomy theorem discharged at `t = 1/2`. -/
theorem boundary_predicate_trichotomy_witness :
    ((1:ℤ) ≤ (WaveClip.mk 0 1 [7, 8] [] [] 0).rate) ∧
    (1 ≤ (WaveClip.mk 0 1 [7, 8] [] [] 0).GetNumSamples +
      (WaveClip.mk 0 1 [7, 8] [] [] 0).appendBufferLen →
      (((WaveClip.mk 0 1 [7, 8] [] [] 0).BeforeClip (1/2) = true ∧
        (WaveClip.mk 0 1 [7, 8] [] [] 0).WithinClip (1/2) = false ∧
        (WaveClip.mk 0 1 [7, 8] [] [] 0).AfterClip (1/2) = false) ∨
       ((WaveClip.mk 0 1 [7, 8] [] [] 0).BeforeClip (1/2) = false ∧
        (WaveClip.mk 0 1 [7, 8] [] [] 0).WithinClip (1/2) = true ∧
        (WaveClip.mk 0 1 [7, 8] [] [] 0).AfterClip (1/2) = false) ∨
       ((WaveClip.mk 0 1 [7, 8] [] [] 0).BeforeClip (1/2) = false ∧
        (WaveClip.mk 0 1 [7, 8] [] [] 0).WithinClip (1/2) = false ∧
        (WaveClip.mk 0 1 [7, 8] [] [] 0).AfterClip (1/2) = true))) :=
  ⟨by decide, (boundary_predicate_trichotomy _ (1/2) (by decide)).1⟩

/-! ## C5: adjacency tolerance of SharesBoundaryWithNextClip -/

/-- C5 counterexample: with differing rates the claim's single-rate
formula (spec §3: "at the higher clip's rate", `specSharesBoundary`)
disagrees with the code: this clip (offset 1, rate 1, 1 sample) ends at
sample 2 in its own rate, the next clip (offset 1, rate 2) starts at
sample 2 in *its* own rate, so the code reports adjacency, while at the
common higher rate 2 the positions are 3 and 2 — more than half a sample
apart. -/
theorem sharesBoundary_claim_counterexample :
    WaveClip.SharesBoundaryWithNextClip (WaveClip.mk 1 1 [0] [] [] 0)
      (WaveClip.mk 1 2 [] [] [] 0) = true ∧
    WaveClip.specSharesBoundary (WaveClip.mk 1 1 [0] [] [] 0)
      (WaveClip.mk 1 2 [] [] [] 0) = false := by
  constructor
  · with_unfolding_all decide
  · with_unfolding_all decide

/-- C5 amended: `SharesBoundaryWithNextClip` returns true exactly when
`|next.rate * next.offset - (rate * offset + numSamples)| < 0.5`, each
clip's boundary converted to samples at its *own* rate; when the two
rates are equal this coincides with the claim's single-rate criterion. -/
theorem sharesBoundary_own_rates (c next : WaveClip) :
    (WaveClip.SharesBoundaryWithNextClip c next = true ↔
      |(next.rate : ℚ) * next.offset -
        ((c.rate : ℚ) * c.offset + (c.GetNumSamples : ℚ))| < 1/2) ∧
    (c.rate = next.rate →
      (WaveClip.SharesBoundaryWithNextClip c next = true ↔
        WaveClip.specSharesBoundary c next = true)) := by
  constructor
  · simp [WaveClip.SharesBoundaryWithNextClip]
  · intro hEq
    simp only [WaveClip.SharesBoundaryWithNextClip, WaveClip.specSharesBoundary,
      decide_eq_true_eq]
    rw [hEq, max_self]
    have e : next.offset * ((next.rate : ℤ) : ℚ) -
        (c.offset * ((next.rate : ℤ) : ℚ) + (c.GetNumSamples : ℚ))
        = (next.rate : ℚ) * next.offset -
          ((next.rate : ℚ) * c.offset + (c.GetNumSamples : ℚ)) := by ring
    rw [e]

/-- Witness for the amended C5 at two equal-rate clips that meet exactly. -/
theorem sharesBoundary_own_rates_witness :
    (WaveClip.mk 0 1 [0] [] [] 0).rate = (WaveClip.mk 1 1 [] [] [] 0).rate ∧
    (WaveClip.SharesBoundaryWithNextClip (WaveClip.mk 0 1 [0] [] [] 0)
        (WaveClip.mk 1 1 [] [] [] 0) = true ↔
      WaveClip.specSharesBoundary (WaveClip.mk 0 1 [0] [] [] 0)
        (WaveClip.mk 1 1 [] [] [] 0) = true) :=
  ⟨rfl, (sharesBoundary_own_rates _ _).2 rfl⟩

/-! ## C7: range-query error handling -/

/-- C7 (confirmed): `GetMinMax(t0, t1)` and `GetRMS(t0, t1)` fail with the
inconsistency error when `t0 > t1`, return the trivial zero results when
`t0 == t1`, and otherwise delegate to the Sequence's scan over the
converted range `[s0, s1)`.  Both are `const` queries, so the clip is
unchanged in every case, in particular on failure. -/
theorem getMinMax_getRMS_contract (c : WaveClip) (t0 t1 : ℚ) :
    (t0 > t1 → c.GetMinMax t0 t1 true = .error .inconsistency ∧
      c.GetRMS t0 t1 true = .error .inconsistency) ∧
    (t0 = t1 → c.GetMinMax t0 t1 true = .ok (0, 0) ∧
      c.GetRMS t0 t1 true = .ok 0) ∧
    (t0 < t1 → c.GetMinMax t0 t1 true =
        .ok (Sequence.GetMinMax c.sequence (c.TimeToSamplesClip t0)
          (c.TimeToSamplesClip t1 - c.TimeToSamplesClip t0)) ∧
      c.GetRMS t0 t1 true =
        .ok (Sequence.GetRMS c.sequence (c.TimeToSamplesClip t0)
          (c.TimeToSamplesClip t1 - c.TimeToSamplesClip t0))) := by
  refine ⟨fun hgt => ?_, fun heq => ?_, fun hlt => ?_⟩
  · constructor <;> simp [WaveClip.GetMinMax, WaveClip.GetRMS, hgt]
  · subst heq
    constructor <;> simp [WaveClip.GetMinMax, WaveClip.GetRMS]
  · constructor <;>
      simp [WaveClip.GetMinMax, WaveClip.GetRMS, not_lt.mpr hlt.le, hlt.ne]

/-- Witness for C7: the inconsistent range `t0 = 1 > 0 = t1` on a
concrete clip is rejected by both queries. -/
theorem getMinMax_getRMS_contract_witness :
    (1:ℚ) > 0 ∧
    (WaveClip.mk 0 1 [1] [] [] 0).GetMinMax 1 0 true = .error .inconsistency ∧
    (WaveClip.mk 0 1 [1] [] [] 0).GetRMS 1 0 true = .error .inconsistency :=
  ⟨by norm_num,
    (getMinMax_getRMS_contract (WaveClip.mk 0 1 [1] [] [] 0) 1 0).1 (by norm_num)⟩

/-! ## C8: XML parsing contract -/

/-- C8 (confirmed): when parsing a `<waveclip>` element, unknown
attributes are ignored; `offset`/`colorindex` are applied (via
`SetOffset`/`SetColourIndex`) only when their strings pass numeric
validation and the tag is rejected (`none`) otherwise; a nested
`<waveclip>` child is appended to the parent's cut-line list as a fresh
cut line and handled there — never as a sibling clip; and the closing tag
recomputes the envelope's track length as `numSamples / rate` from the
now-loaded sequence. -/
theorem handleXML_parsing_contract (c : WaveClip) (attrName : String)
    (v : WaveClip.AttrValue) (d : ℚ) (k : ℤ)
    (rest : List (String × WaveClip.AttrValue)) :
    (attrName ≠ "offset" → attrName ≠ "colorindex" →
      WaveClip.applyXMLAttrs c ((attrName, v) :: rest) =
        WaveClip.applyXMLAttrs c rest) ∧
    (v.asDouble = none →
      WaveClip.applyXMLAttrs c (("offset", v) :: rest) = none) ∧
    (v.asDouble = some d →
      WaveClip.applyXMLAttrs c (("offset", v) :: rest) =
        WaveClip.applyXMLAttrs (c.SetOffset d) rest) ∧
    (v.asLong = none →
      WaveClip.applyXMLAttrs c (("colorindex", v) :: rest) = none) ∧
    (v.asLong = some k →
      WaveClip.applyXMLAttrs c (("colorindex", v) :: rest) =
        WaveClip.applyXMLAttrs (c.SetColourIndex k) rest) ∧
    (c.HandleXMLChild "waveclip" =
      some (WaveClip.mk c.offset c.rate c.sequence c.appendBuffer
        (c.cutLines ++ [WaveClip.mk 0 c.rate [] [] [] 0]) c.colourIndex,
        .cutline c.cutLines.length)) ∧
    (c.HandleXMLEndTag "waveclip" =
      some ((c.GetNumSamples : ℚ) / (c.rate : ℚ))) := by
  refine ⟨fun h1 h2 => ?_, fun h => ?_, fun h => ?_, fun h => ?_,
    fun h => ?_, ?_, ?_⟩
  · simp [WaveClip.applyXMLAttrs, h1, h2]
  · simp [WaveClip.applyXMLAttrs, h]
  · simp [WaveClip.applyXMLAttrs, h]
  · simp [WaveClip.applyXMLAttrs, h]
  · simp [WaveClip.applyXMLAttrs, h]
  · simp [WaveClip.HandleXMLChild]
  · simp [WaveClip.HandleXMLEndTag]

/-- Witness for C8: an unknown attribute `foo` is skipped on a concrete
clip. -/
theorem handleXML_parsing_contract_witness :
    ("foo" ≠ "offset") ∧ ("foo" ≠ "colorindex") ∧
    WaveClip.applyXMLAttrs (WaveClip.mk 0 1 [] [] [] 0)
        [("foo", ⟨some 3, some 4⟩)] =
      WaveClip.applyXMLAttrs (WaveClip.mk 0 1 [] [] [] 0) [] :=
  ⟨by decide, by decide,
    (handleXML_parsing_contract (WaveClip.mk 0 1 [] [] [] 0) "foo"
      ⟨some 3, some 4⟩ 0 0 []).1 (by decide) (by decide)⟩

/-! ## C1: Resample atomicity -/

/-- C1 (confirmed): whenever `Resample` raises an error — the
user-cancellation error when the progress callback reports a
non-success, the "Resampling failed." message when the sequence read or
the resampler fails — the clip state carried at the throw point is the
receiver unchanged: same rate, same sequence, and hence same sample
count.  A successful return is either the trivial same-rate early return
or carries the target rate with the freshly built sequence swapped in
and every other field untouched. -/
theorem resample_atomicity (c : WaveClip) (newRate : ℤ)
    (step : ℕ → WaveClip.ResampleStep) (hasProgress : Bool) (fuel : ℕ) :
    (∀ e c', c.Resample newRate step hasProgress fuel = some (.error (e, c')) →
      c' = c ∧ (e = .userCancelled ∨ e = .message "Resampling failed.")) ∧
    (∀ c', c.Resample newRate step hasProgress fuel = some (.ok c') →
      (newRate = c.rate ∧ c' = c) ∨
      (c'.rate = newRate ∧ c'.offset = c.offset ∧
        c'.appendBuffer = c.appendBuffer ∧ c'.cutLines = c.cutLines ∧
        c'.colourIndex = c.colourIndex)) := by
  constructor
  · intro e c' hres
    unfold WaveClip.Resample at hres
    by_cases hrate : newRate = c.rate
    · rw [if_pos hrate] at hres
      simp at hres
    · rw [if_neg hrate] at hres
      cases hout : WaveClip.resampleLoop c.GetNumSamples step hasProgress
          fuel 0 0 [] 0 <;> rw [hout] at hres <;> simp_all
  · intro c' hres
    unfold WaveClip.Resample at hres
    by_cases hrate : newRate = c.rate
    · rw [if_pos hrate] at hres
      simp at hres
      exact Or.inl ⟨hrate, hres.symm⟩
    · rw [if_neg hrate] at hres
      cases hout : WaveClip.resampleLoop c.GetNumSamples step hasProgress
          fuel 0 0 [] 0 <;> rw [hout] at hres <;> simp_all
      subst hres
      simp

/-- Witness for C1: the progress oracle cancels on the very first chunk;
`Resample` raises the user-cancellation error carrying the untouched
clip. -/
theorem resample_atomicity_witness :
    (WaveClip.mk 0 1 [1, 2] [] [] 0).Resample 2
        (fun _ => ⟨true, 1, 0, [], .Cancelled⟩) true 3 =
      some (.error (.userCancelled, WaveClip.mk 0 1 [1, 2] [] [] 0)) ∧
    (WaveClip.mk 0 1 [1, 2] [] [] 0) = (WaveClip.mk 0 1 [1, 2] [] [] 0) ∧
    ((AudacityError.userCancelled = .userCancelled) ∨
      (AudacityError.userCancelled = .message "Resampling failed.")) := by
  have happ := (resample_atomicity (WaveClip.mk 0 1 [1, 2] [] [] 0) 2
    (fun _ => ⟨true, 1, 0, [], .Cancelled⟩) true 3).1
    AudacityError.userCancelled (WaveClip.mk 0 1 [1, 2] [] [] 0)
    (by with_unfolding_all rfl)
  exact ⟨by with_unfolding_all rfl, happ⟩

/-! ## C3: Append/Flush homomorphism -/

namespace WaveClip

/-- A successful run of the append loop preserves the concatenation
`sequence ++ buffer ++ remaining input`: flushing moves samples from the
buffer front to the sequence end, copying moves samples from the input
front to the buffer end. -/
theorem appendLoop_concat (cfg : SeqCfg) :
    ∀ (fuel : ℕ) (seqData buf : List ℚ) (blockSize : ℕ) (input s b : List ℚ),
      appendLoop cfg fuel seqData buf blockSize input = some (s, b) →
      s ++ b = seqData ++ buf ++ input := by
  intro fuel
  induction fuel with
  | zero => intro _ _ _ _ _ _ h; simp [appendLoop] at h
  | succ n ih =>
    intro seqData buf blockSize input s b h
    have hjoin : ∀ (l m : List ℚ) (k : ℕ),
        l.take k ++ (l.drop k ++ m) = l ++ m := by
      intro l m k
      rw [← List.append_assoc, List.take_append_drop]
    by_cases hf : blockSize ≤ buf.length <;>
      by_cases he : input.isEmpty = true
    · rw [List.isEmpty_iff] at he
      subst he
      simp only [appendLoop, hf, if_true, ite_true, List.isEmpty_nil,
        Option.some.injEq, Prod.mk.injEq] at h
      obtain ⟨rfl, rfl⟩ := h
      simp [List.append_assoc, List.take_append_drop]
    · simp only [appendLoop, hf, he, if_true, if_false, ite_true,
        ite_false, Bool.false_eq_true] at h
      have hrec := ih _ _ _ _ _ _ h
      rw [hrec]
      simp [List.append_assoc, List.take_append_drop, hjoin]
    · rw [List.isEmpty_iff] at he
      subst he
      simp only [appendLoop, hf, if_false, ite_false, List.isEmpty_nil,
        if_true, ite_true, Option.some.injEq, Prod.mk.injEq] at h
      obtain ⟨rfl, rfl⟩ := h
      simp
    · simp only [appendLoop, hf, he, if_true, if_false, ite_true,
        ite_false, Bool.false_eq_true] at h
      have hrec := ih _ _ _ _ _ _ h
      rw [hrec]
      simp [List.append_assoc, List.take_append_drop, hjoin]

/-- With the real Sequence's invariant
`1 ≤ GetIdealAppendLen() ≤ GetMaxBlockSize()` the append loop consumes
its whole input within `input.length + 1` iterations and keeps the
buffer within `maxBlockSize`. -/
theorem appendLoop_total (cfg : SeqCfg)
    (hIdeal : ∀ m, 1 ≤ cfg.idealAppendLen m ∧
      cfg.idealAppendLen m ≤ cfg.maxBlockSize) :
    ∀ (fuel : ℕ) (input seqData buf : List ℚ) (blockSize : ℕ),
      input.length + 1 ≤ fuel → 1 ≤ blockSize →
      blockSize ≤ cfg.maxBlockSize → buf.length ≤ cfg.maxBlockSize →
      ∃ s b, appendLoop cfg fuel seqData buf blockSize input = some (s, b) ∧
        b.length ≤ cfg.maxBlockSize := by
  intro fuel
  induction fuel with
  | zero => intro input _ _ _ hle; omega
  | succ n ih =>
    intro input seqData buf blockSize hle h1 h2 hbuf
    by_cases hf : blockSize ≤ buf.length <;>
      by_cases he : input.isEmpty = true
    · refine ⟨seqData ++ buf.take blockSize, buf.drop blockSize, ?_, ?_⟩
      · simp [appendLoop, hf, he]
      · simp only [List.length_drop]; omega
    · have hne : input.length ≠ 0 := by
        simpa [List.isEmpty_iff, List.length_eq_zero] using he
      have hbs := hIdeal (seqData ++ buf.take blockSize).length
      have hstep :
          appendLoop cfg (n + 1) seqData buf blockSize input =
          appendLoop cfg n (seqData ++ buf.take blockSize)
            (buf.drop blockSize ++ input.take
              (min input.length (cfg.maxBlockSize - (buf.drop blockSize).length)))
            (cfg.idealAppendLen (seqData ++ buf.take blockSize).length)
            (input.drop
              (min input.length (cfg.maxBlockSize - (buf.drop blockSize).length))) := by
        simp [appendLoop, hf, he]
      rw [hstep]
      apply ih
      · simp only [List.length_drop]
        omega
      · exact hbs.1
      · exact hbs.2
      · simp only [List.length_append, List.length_take, List.length_drop]
        omega
    · exact ⟨seqData, buf, by simp [appendLoop, hf, he], hbuf⟩
    · have hne : input.length ≠ 0 := by
        simpa [List.isEmpty_iff, List.length_eq_zero] using he
      have hstep :
          appendLoop cfg (n + 1) seqData buf blockSize input =
          appendLoop cfg n seqData
            (buf ++ input.take (min input.length (cfg.maxBlockSize - buf.length)))
            blockSize
            (input.drop (min input.length (cfg.maxBlockSize - buf.length))) := by
        simp [appendLoop, hf, he]
      rw [hstep]
      apply ih
      · simp only [List.length_drop]
        omega
      · exact h1
      · exact h2
      · simp only [List.length_append, List.length_take]
        omega

/-- Closed form of `Flush`: the buffered samples move to the sequence end
and the buffer empties (trivially so when it was already empty). -/
theorem Flush_eq (c : WaveClip) :
    c.Flush = WaveClip.mk c.offset c.rate (c.sequence ++ c.appendBuffer) []
      c.cutLines c.colourIndex := by
  cases c with
  | mk o r s a cs ci =>
    unfold Flush
    simp only [appendBuffer_mk, sequence_mk, offset_mk, rate_mk, cutLines_mk,
      colourIndex_mk]
    split
    · rfl
    · next h =>
      have ha : a = [] := by
        rw [← List.length_eq_zero]
        omega
      subst ha
      simp

/-- A single `Append` call succeeds under the Sequence invariant and
changes only the sequence/buffer pair, preserving their concatenation
with the input attached. -/
theorem Append_spec (cfg : SeqCfg) (c : WaveClip) (input : List ℚ)
    (hIdeal : ∀ m, 1 ≤ cfg.idealAppendLen m ∧
      cfg.idealAppendLen m ≤ cfg.maxBlockSize)
    (hbuf : c.appendBuffer.length ≤ cfg.maxBlockSize) :
    ∃ c', Append cfg c input = some c' ∧
      c'.sequence ++ c'.appendBuffer =
        c.sequence ++ c.appendBuffer ++ input ∧
      c'.appendBuffer.length ≤ cfg.maxBlockSize ∧
      c'.offset = c.offset ∧ c'.rate = c.rate ∧
      c'.cutLines = c.cutLines ∧ c'.colourIndex = c.colourIndex := by
  obtain ⟨s, b, hrun, hb⟩ := appendLoop_total cfg hIdeal (input.length + 1)
    input c.sequence c.appendBuffer (cfg.idealAppendLen c.sequence.length)
    (le_refl _) (hIdeal _).1 (hIdeal _).2 hbuf
  have hcat := appendLoop_concat cfg _ _ _ _ _ _ _ hrun
  refine ⟨WaveClip.mk c.offset c.rate s b c.cutLines c.colourIndex, ?_,
    by simpa using hcat, by simpa using hb, by simp, by simp, by simp, by simp⟩
  unfold Append
  rw [hrun]

/-- Chained `Append` calls succeed and accumulate the joined chunks. -/
theorem appendChunks_spec (cfg : SeqCfg)
    (hIdeal : ∀ m, 1 ≤ cfg.idealAppendLen m ∧
      cfg.idealAppendLen m ≤ cfg.maxBlockSize) :
    ∀ (chunks : List (List ℚ)) (c : WaveClip),
      c.appendBuffer.length ≤ cfg.maxBlockSize →
      ∃ c', appendChunks cfg c chunks = some c' ∧
        c'.sequence ++ c'.appendBuffer =
          c.sequence ++ c.appendBuffer ++ chunks.flatten ∧
        c'.appendBuffer.length ≤ cfg.maxBlockSize ∧
        c'.offset = c.offset ∧ c'.rate = c.rate ∧
        c'.cutLines = c.cutLines ∧ c'.colourIndex = c.colourIndex := by
  intro chunks
  induction chunks with
  | nil => intro c hbuf; exact ⟨c, rfl, by simp, hbuf, rfl, rfl, rfl, rfl⟩
  | cons chunk rest ih =>
    intro c hbuf
    obtain ⟨c', hrun, hcat, hb, ho, hr, hcs, hci⟩ :=
      Append_spec cfg c chunk hIdeal hbuf
    obtain ⟨c'', hrun', hcat', hb', ho', hr', hcs', hci'⟩ := ih c' hb
    refine ⟨c'', ?_, ?_, hb', by rw [ho', ho], by rw [hr', hr],
      by rw [hcs', hcs], by rw [hci', hci]⟩
    · unfold appendChunks
      rw [hrun]
      exact hrun'
    · rw [hcat', hcat]
      simp [List.append_assoc]

end WaveClip

/-- C3 (confirmed): appending a buffer in arbitrarily many consecutive
chunks and then flushing yields exactly the same clip — in particular a
Sequence with the same `numSamples` and bit-identical content — as
appending the whole buffer in one call and flushing, under the real
Sequence's invariant `1 ≤ GetIdealAppendLen() ≤ GetMaxBlockSize()` and a
buffer within `maxBlockSize`. -/
theorem append_flush_homomorphism (cfg : WaveClip.SeqCfg) (c : WaveClip)
    (chunks : List (List ℚ))
    (hIdeal : ∀ m, 1 ≤ cfg.idealAppendLen m ∧
      cfg.idealAppendLen m ≤ cfg.maxBlockSize)
    (hbuf : c.appendBuffer.length ≤ cfg.maxBlockSize) :
    ∃ c₁ c₂, WaveClip.appendChunks cfg c chunks = some c₁ ∧
      WaveClip.Append cfg c chunks.flatten = some c₂ ∧
      c₁.Flush = c₂.Flush ∧
      c₁.Flush.sequence = c.sequence ++ c.appendBuffer ++ chunks.flatten ∧
      c₁.Flush.appendBuffer = [] ∧
      c₁.Flush.GetNumSamples = c₂.Flush.GetNumSamples := by
  obtain ⟨c₁, hrun₁, hcat₁, hb₁, ho₁, hr₁, hcs₁, hci₁⟩ :=
    WaveClip.appendChunks_spec cfg hIdeal chunks c hbuf
  obtain ⟨c₂, hrun₂, hcat₂, hb₂, ho₂, hr₂, hcs₂, hci₂⟩ :=
    WaveClip.Append_spec cfg c chunks.flatten hIdeal hbuf
  have hflush : c₁.Flush = c₂.Flush := by
    rw [WaveClip.Flush_eq, WaveClip.Flush_eq, ho₁, ho₂, hr₁, hr₂, hcs₁, hcs₂,
      hci₁, hci₂, hcat₁, hcat₂]
  refine ⟨c₁, c₂, hrun₁, hrun₂, hflush, ?_, ?_, by rw [hflush]⟩
  · rw [WaveClip.Flush_eq]
    simpa using hcat₁
  · rw [WaveClip.Flush_eq]
    simp

/-- Witness for C3: three samples appended as `[1]` then `[2, 3]` versus
all at once, with `maxBlockSize = 4` and a constant ideal append length
of 2. -/
theorem append_flush_homomorphism_witness :
    (∀ m, 1 ≤ (WaveClip.SeqCfg.mk 4 (fun _ => 2)).idealAppendLen m ∧
      (WaveClip.SeqCfg.mk 4 (fun _ => 2)).idealAppendLen m ≤
        (WaveClip.SeqCfg.mk 4 (fun _ => 2)).maxBlockSize) ∧
    (WaveClip.mk 0 1 [] [] [] 0).appendBuffer.length ≤
      (WaveClip.SeqCfg.mk 4 (fun _ => 2)).maxBlockSize ∧
    ∃ c₁ c₂,
      WaveClip.appendChunks (WaveClip.SeqCfg.mk 4 (fun _ => 2))
        (WaveClip.mk 0 1 [] [] [] 0) [[1], [2, 3]] = some c₁ ∧
      WaveClip.Append (WaveClip.SeqCfg.mk 4 (fun _ => 2))
        (WaveClip.mk 0 1 [] [] [] 0) [[1], [2, 3]].flatten = some c₂ ∧
      c₁.Flush = c₂.Flush ∧
      c₁.Flush.sequence = (WaveClip.mk 0 1 [] [] [] 0).sequence ++
        (WaveClip.mk 0 1 [] [] [] 0).appendBuffer ++ [[1], [2, 3]].flatten ∧
      c₁.Flush.appendBuffer = [] ∧
      c₁.Flush.GetNumSamples = c₂.Flush.GetNumSamples :=
  ⟨fun m => ⟨by norm_num, by norm_num⟩, by decide,
    append_flush_homomorphism (WaveClip.SeqCfg.mk 4 (fun _ => 2))
      (WaveClip.mk 0 1 [] [] [] 0) [[1], [2, 3]]
      (fun m => ⟨by norm_num, by norm_num⟩) (by decide)⟩

/-! ## C4: cut-line offset tracking under Clear -/

/-- C4 counterexample: `Clear`'s cut-line shift is `clip_t0 - clip_t1`
where `clip_t1 = min(t1, GetEndTime())` is read *after* the sample
deletion.  Clearing `[2, 7]` of a 10-sample rate-1 clip leaves a 5-sample
clip (post-delete end time 5), so its cut line at absolute position 8 is
shifted by `2 - 5 = -3` to position 5 — not to `8 - (7 - 2) = 3` as the
claim demands for every cut line at/after `t1`. -/
theorem clear_cutline_shift_counterexample :
    (2:ℚ) ≤ 7 ∧ (8:ℚ) ∈ c4clip.cutlinePositions ∧ (7:ℚ) ≤ 8 ∧
    ((8:ℚ) - (7 - 2)) ∉ (c4clip.Clear 2 7).cutlinePositions := by
  refine ⟨by norm_num, by with_unfolding_all decide, by norm_num,
    by with_unfolding_all decide⟩

/-- C4 amended: the claimed shift `oldPosition - (t1 - t0)` holds for a
cut line *strictly* after `t1` (at `t1` exactly the cut line is erased,
not shifted) provided `t0` is not before the clip start and `t1` does
not exceed the clip's *post-deletion* end time — precisely the regime
where `clip_t0 = t0` and `clip_t1 = t1` in `WaveClip::Clear`.  Assumes a
positive integer rate. -/
theorem clear_cutline_shift (c : WaveClip) (t0 t1 p : ℚ)
    (h1 : 1 ≤ c.rate) (h2 : c.GetStartTime ≤ t0) (h3 : t0 ≤ t1)
    (h4 : t1 < p) (h5 : p ∈ c.cutlinePositions)
    (h6 : t1 ≤ c.offset +
      ((c.GetNumSamples - (c.TimeToSamplesClip t1 - c.TimeToSamplesClip t0)
        + c.appendBufferLen : ℤ) : ℚ) / (c.rate : ℚ)) :
    p - (t1 - t0) ∈ (c.Clear t0 t1).cutlinePositions := by
  have hs0 : 0 ≤ c.TimeToSamplesClip t0 := c.tts_nonneg t0 h1
  have hs01 : c.TimeToSamplesClip t0 ≤ c.TimeToSamplesClip t1 :=
    c.tts_mono t0 t1 h1 h3
  have hs1 : c.TimeToSamplesClip t1 ≤ c.GetNumSamples :=
    c.tts_le_numSamples t1 h1
  have hlen : ((Sequence.Delete c.sequence (c.TimeToSamplesClip t0)
      (c.TimeToSamplesClip t1 - c.TimeToSamplesClip t0)).length : ℤ)
      = c.GetNumSamples - (c.TimeToSamplesClip t1 - c.TimeToSamplesClip t0) := by
    unfold Sequence.Delete
    rw [show c.TimeToSamplesClip t0 + (c.TimeToSamplesClip t1 -
      c.TimeToSamplesClip t0) = c.TimeToSamplesClip t1 by ring]
    have hns : c.GetNumSamples = (c.sequence.length : ℤ) := rfl
    simp only [List.length_append, List.length_take, List.length_drop]
    omega
  obtain ⟨cl, hcl, hpos⟩ := List.mem_map.mp h5
  have hsh : t1 ≤ c.offset + cl.offset := le_of_lt (hpos ▸ h4)
  have hkeep : ¬ (t0 ≤ c.offset + cl.offset ∧ c.offset + cl.offset ≤ t1) := by
    rw [hpos]
    intro hand
    exact absurd hand.2 (not_le.mpr h4)
  simp only [WaveClip.Clear, WaveClip.GetStartTime, WaveClip.GetEndTime,
    WaveClip.GetNumSamples, WaveClip.appendBufferLen, WaveClip.offset_mk,
    WaveClip.rate_mk, WaveClip.sequence_mk, WaveClip.appendBuffer_mk,
    WaveClip.cutLines_mk, WaveClip.colourIndex_mk, WaveClip.cutlinePositions]
  rw [max_eq_left (by exact h2), min_eq_left (by
    have hns : c.GetNumSamples = (c.sequence.length : ℤ) := rfl
    have hab : c.appendBufferLen = (c.appendBuffer.length : ℤ) := rfl
    rw [show ((Sequence.Delete c.sequence (c.TimeToSamplesClip t0)
      (c.TimeToSamplesClip t1 - c.TimeToSamplesClip t0)).length : ℤ)
      + (c.appendBuffer.length : ℤ)
      = c.GetNumSamples - (c.TimeToSamplesClip t1 - c.TimeToSamplesClip t0)
        + c.appendBufferLen by rw [hlen, hab]]
    exact h6)]
  have h2' : c.offset ≤ t0 := h2
  rw [if_neg (not_lt.mpr h2')]
  simp only [WaveClip.cutLines_mk, WaveClip.offset_mk, List.mem_map]
  refine ⟨WaveClip.Offset cl (t0 - t1), ?_, ?_⟩
  · refine ⟨cl, ?_, ?_⟩
    · rw [List.mem_filter]
      refine ⟨hcl, ?_⟩
      simp only [Bool.not_eq_true', decide_eq_false_iff_not]
      exact hkeep
    · rw [if_pos hsh]
  · simp only [WaveClip.offset_Offset]
    rw [← hpos]
    ring

/-- Witness for the amended C4: clearing `[1, 2]` of a 4-sample rate-1
clip shifts its cut line at position 3 to position 2. -/
theorem clear_cutline_shift_witness :
    ((1:ℤ) ≤ (WaveClip.mk 0 1 [0, 0, 0, 0] [] [WaveClip.mk 3 1 [5] [] [] 0] 0).rate) ∧
    ((3:ℚ) - (2 - 1)) ∈
      ((WaveClip.mk 0 1 [0, 0, 0, 0] [] [WaveClip.mk 3 1 [5] [] [] 0] 0).Clear 1 2).cutlinePositions :=
  ⟨by decide,
    clear_cutline_shift (WaveClip.mk 0 1 [0, 0, 0, 0] [] [WaveClip.mk 3 1 [5] [] [] 0] 0)
      1 2 3 (by decide) (by with_unfolding_all decide) (by norm_num)
      (by norm_num) (by with_unfolding_all decide)
      (by with_unfolding_all decide)⟩

/-! ## C2: helper lemmas for the cut-line round trip -/

namespace WaveClip

/-- Conversion `TimeToSamplesClip` at `t0` is stable under deleting the samples
`[s0, s1)` from the clip: a clip with the same offset and rate whose
sample count is `s0 + (n - s1)` converts `t0` to the same index `s0`. -/
theorem tts_shrunk (c c1 : WaveClip) (t0 t1 : ℚ) (h1 : 1 ≤ c.rate)
    (ho : c1.offset = c.offset) (hr : c1.rate = c.rate)
    (hn : c1.GetNumSamples =
      c.TimeToSamplesClip t0 + (c.GetNumSamples - c.TimeToSamplesClip t1))
    (h2 : c.offset ≤ t0) (h3 : t0 ≤ t1) :
    c1.TimeToSamplesClip t0 = c.TimeToSamplesClip t0 := by
  have hrq := c.rate_cast_pos h1
  have hs1n := c.tts_le_numSamples t1 h1
  have hmono := c.tts_mono t0 t1 h1 h3
  by_cases hA : t0 > c.offset + (c.GetNumSamples : ℚ) / (c.rate : ℚ)
  · have hs0 : c.TimeToSamplesClip t0 = c.GetNumSamples := by
      unfold TimeToSamplesClip
      rw [if_neg (not_lt.mpr h2), if_pos hA]
    have hs1 : c.TimeToSamplesClip t1 = c.GetNumSamples := by
      unfold TimeToSamplesClip
      rw [if_neg (not_lt.mpr (le_trans h2 h3)), if_pos (lt_of_lt_of_le hA h3)]
    have hn1 : c1.GetNumSamples = c.GetNumSamples := by
      rw [hn, hs0, hs1]; ring
    unfold TimeToSamplesClip
    rw [ho, hr, hn1, if_neg (not_lt.mpr h2), if_pos hA]
  · have hs0 : c.TimeToSamplesClip t0 =
        ⌊(t0 - c.offset) * (c.rate : ℚ) + 1/2⌋ := by
      unfold TimeToSamplesClip
      rw [if_neg (not_lt.mpr h2), if_neg hA]
    by_cases hB : t0 > c.offset + (c1.GetNumSamples : ℚ) / (c.rate : ℚ)
    · have hup : (c1.GetNumSamples : ℚ) < (t0 - c.offset) * (c.rate : ℚ) := by
        rw [← div_lt_iff₀ hrq]
        linarith
      have hflo : (t0 - c.offset) * (c.rate : ℚ) + 1/2 <
          (c.TimeToSamplesClip t0 : ℚ) + 1 := by
        rw [hs0]
        exact Int.lt_floor_add_one _
      have hle : c1.GetNumSamples ≤ c.TimeToSamplesClip t0 := by
        have : (c1.GetNumSamples : ℚ) < (c.TimeToSamplesClip t0 : ℚ) + 1/2 := by
          linarith
        have : (c1.GetNumSamples : ℚ) < (c.TimeToSamplesClip t0 : ℚ) + 1 := by
          linarith
        exact_mod_cast Int.lt_add_one_iff.mp (by exact_mod_cast this)
      have hge : c.TimeToSamplesClip t0 ≤ c1.GetNumSamples := by omega
      have heq : c1.GetNumSamples = c.TimeToSamplesClip t0 := le_antisymm hle hge
      unfold TimeToSamplesClip
      rw [ho, hr, if_neg (not_lt.mpr h2), if_pos hB, if_neg hA, heq, hs0,
        if_neg (not_lt.mpr h2)]
    · unfold TimeToSamplesClip
      rw [ho, hr, if_neg (not_lt.mpr h2), if_neg hB, if_neg hA,
        if_neg (not_lt.mpr h2)]

end WaveClip

/-- Deleting `[s0, s1)` from a sequence and pasting back the copy of
`[s0, s1)` at position `s0` restores the sequence exactly. -/
theorem paste_delete_copy (S : List ℚ) (s0 s1 : ℤ)
    (h0 : 0 ≤ s0) (h01 : s0 ≤ s1) (h1n : s1 ≤ (S.length : ℤ)) :
    Sequence.Paste (Sequence.Delete S s0 (s1 - s0)) s0
      (Sequence.Copy S s0 s1) = S := by
  unfold Sequence.Paste Sequence.Delete Sequence.Copy
  rw [show s0 + (s1 - s0) = s1 by ring]
  have hij : s0.toNat ≤ s1.toNat := Int.toNat_le_toNat h01
  have hjn : s1.toNat ≤ S.length := Int.toNat_le.mpr h1n
  have hin : s0.toNat ≤ S.length := le_trans hij hjn
  have htake : (S.take s0.toNat).length = s0.toNat := by
    rw [List.length_take]; omega
  have h1 : (S.take s0.toNat ++ S.drop s1.toNat).take s0.toNat
      = S.take s0.toNat := by
    rw [List.take_append_eq_append_take, htake]
    simp
  have h2 : (S.take s0.toNat ++ S.drop s1.toNat).drop s0.toNat
      = S.drop s1.toNat := by
    rw [List.drop_append_eq_append_drop, htake]
    simp [List.drop_eq_nil_of_le (le_of_eq htake)]
  rw [h1, h2]
  have h3 : S.take s0.toNat = (S.take s1.toNat).take s0.toNat := by
    rw [List.take_take, min_eq_left hij]
  rw [h3, List.take_append_drop, List.take_append_drop]

/-- If no element of `l` is within tolerance of `pos` but `y` is, the
cut-line search over `l ++ [y]` finds exactly index `l.length`. -/
theorem findCutlineIdx_concat (o pos : ℚ) (l : List WaveClip) (y : WaveClip)
    (hl : ∀ x ∈ l, ¬ |o + x.offset - pos| < 1/10000)
    (hy : |o + y.offset - pos| < 1/10000) :
    WaveClip.findCutlineIdx o pos (l ++ [y]) = some l.length := by
  induction l with
  | nil =>
    rw [List.nil_append]
    unfold WaveClip.findCutlineIdx
    rw [if_pos hy]
    rfl
  | cons x xs ih =>
    have hx := hl x (by simp)
    rw [List.cons_append]
    unfold WaveClip.findCutlineIdx
    rw [if_neg hx, ih (fun z hz => hl z (by simp [hz]))]
    rfl

namespace WaveClip

/-- The sequence component of `Paste`: the other clip's sequence spliced
in at the converted position. -/
theorem sequence_Paste (c : WaveClip) (t0 : ℚ) (other : WaveClip) :
    (c.Paste t0 other).sequence =
      Sequence.Paste c.sequence (c.TimeToSamplesClip t0) other.sequence := by
  cases c with
  | mk o r s a cs ci =>
    simp [WaveClip.Paste, WaveClip.OffsetCutLines]

/-- The range copy `copyRange` keeps the rate and copies exactly `[s0, s1)`. -/
theorem sequence_copyRange (c : WaveClip) (t0 t1 : ℚ) :
    (c.copyRange t0 t1).sequence =
      Sequence.Copy c.sequence (c.TimeToSamplesClip t0)
        (c.TimeToSamplesClip t1) := by
  simp [WaveClip.copyRange]

/-- In-bounds `ClearAndAddCutLine` in closed form (`clip_t0 = t0`,
`clip_t1 = t1`, no trailing offset shift). -/
theorem clearAndAddCutLine_in_bounds (c : WaveClip) (t0 t1 : ℚ)
    (h2 : c.GetStartTime ≤ t0) (h3 : t0 ≤ t1) (h4 : t1 ≤ c.GetEndTime) :
    c.ClearAndAddCutLine t0 t1 =
      (WaveClip.mk c.offset c.rate
        (Sequence.Delete c.sequence (c.TimeToSamplesClip t0)
          (c.TimeToSamplesClip t1 - c.TimeToSamplesClip t0))
        c.appendBuffer
        (((c.cutLines.filter fun cl =>
            !decide (t0 ≤ c.offset + cl.offset ∧ c.offset + cl.offset ≤ t1)).map
          fun cl => if t1 ≤ c.offset + cl.offset then cl.Offset (t0 - t1)
            else cl)
          ++ [(c.copyRange t0 t1).SetOffset (t0 - c.offset)])
        c.colourIndex, true) := by
  have h2' : c.offset ≤ t0 := h2
  have hnot : ¬ (t0 > c.GetEndTime ∨ t1 < c.GetStartTime) := by
    push_neg
    exact ⟨le_trans h3 h4, le_trans h2 h3⟩
  unfold ClearAndAddCutLine
  rw [if_neg hnot, max_eq_left h2, min_eq_left h4]
  simp only [WaveClip.offset_mk, WaveClip.rate_mk, WaveClip.sequence_mk,
    WaveClip.appendBuffer_mk, WaveClip.cutLines_mk, WaveClip.colourIndex_mk,
    WaveClip.GetStartTime]
  rw [if_neg (not_lt.mpr h2')]
  simp only [WaveClip.offset_mk, WaveClip.rate_mk, WaveClip.sequence_mk,
    WaveClip.appendBuffer_mk, WaveClip.cutLines_mk, WaveClip.colourIndex_mk]

end WaveClip

/-- C2 counterexample: `ExpandCutLine` expands the *first* cut line
within its 0.0001 tolerance.  `c2clip` already has a cut line 0.00005 s
before `t0 = 1/2`, so after `ClearAndAddCutLine(1/2, 2)` — whose new cut
line does sit at position 1/2 — expanding at the resulting position
re-pastes the *pre-existing* cut line's content `[9]` instead, and the
sample content is not restored. -/
theorem clear_cutline_roundtrip_counterexample :
    ((c2clip.ClearAndAddCutLine (1/2) 2).1.cutLines.getLast?.map
      (fun cl => (c2clip.ClearAndAddCutLine (1/2) 2).1.offset + cl.offset))
      = some (1/2) ∧
    ((c2clip.ClearAndAddCutLine (1/2) 2).1.ExpandCutLine (1/2)).sequence
      ≠ c2clip.sequence := by
  constructor
  · with_unfolding_all decide
  · with_unfolding_all decide

/-- C2 amended: for `start ≤ t0 ≤ t1 ≤ end` on a positive-rate clip,
`ClearAndAddCutLine(t0, t1)` appends a cut line whose absolute position
is exactly `t0`, and `ExpandCutLine` at that position restores the
clip's sample content exactly — *provided* no pre-existing cut line sits
within the 0.0001 expansion tolerance of `t0` or of `t1` (those are the
positions at which surviving cut lines could shadow the new one in the
first-match search, as the counterexample shows). -/
theorem clear_cutline_roundtrip (c : WaveClip) (t0 t1 : ℚ)
    (h1 : 1 ≤ c.rate) (h2 : c.GetStartTime ≤ t0) (h3 : t0 ≤ t1)
    (h4 : t1 ≤ c.GetEndTime)
    (hTol : ∀ cl ∈ c.cutLines, 1/10000 ≤ |c.offset + cl.offset - t0| ∧
      1/10000 ≤ |c.offset + cl.offset - t1|) :
    ((c.ClearAndAddCutLine t0 t1).1.cutLines.getLast?.map
      (fun cl => (c.ClearAndAddCutLine t0 t1).1.offset + cl.offset))
      = some t0 ∧
    ((c.ClearAndAddCutLine t0 t1).1.ExpandCutLine t0).sequence
      = c.sequence := by
  have h2' : c.offset ≤ t0 := h2
  have hC := c.clearAndAddCutLine_in_bounds t0 t1 h2 h3 h4
  have hs0 : 0 ≤ c.TimeToSamplesClip t0 := c.tts_nonneg t0 h1
  have hs01 : c.TimeToSamplesClip t0 ≤ c.TimeToSamplesClip t1 :=
    c.tts_mono t0 t1 h1 h3
  have hs1n : c.TimeToSamplesClip t1 ≤ c.GetNumSamples :=
    c.tts_le_numSamples t1 h1
  have hlen : ((Sequence.Delete c.sequence (c.TimeToSamplesClip t0)
      (c.TimeToSamplesClip t1 - c.TimeToSamplesClip t0)).length : ℤ)
      = c.GetNumSamples -
        (c.TimeToSamplesClip t1 - c.TimeToSamplesClip t0) := by
    unfold Sequence.Delete
    rw [show c.TimeToSamplesClip t0 + (c.TimeToSamplesClip t1 -
      c.TimeToSamplesClip t0) = c.TimeToSamplesClip t1 by ring]
    have hns : c.GetNumSamples = (c.sequence.length : ℤ) := rfl
    simp only [List.length_append, List.length_take, List.length_drop]
    omega
  have hnewoff : ((c.copyRange t0 t1).SetOffset (t0 - c.offset)).offset
      = t0 - c.offset := by simp
  have hnew : |c.offset +
      ((c.copyRange t0 t1).SetOffset (t0 - c.offset)).offset - t0|
      < 1/10000 := by
    rw [hnewoff, show c.offset + (t0 - c.offset) - t0 = 0 by ring]
    norm_num
  have hrem : ∀ x ∈ ((c.cutLines.filter fun cl =>
      !decide (t0 ≤ c.offset + cl.offset ∧ c.offset + cl.offset ≤ t1)).map
      fun cl => if t1 ≤ c.offset + cl.offset then cl.Offset (t0 - t1)
        else cl),
      ¬ |c.offset + x.offset - t0| < 1/10000 := by
    intro x hx
    obtain ⟨cl, hclf, rfl⟩ := List.mem_map.mp hx
    have hclmem : cl ∈ c.cutLines := (List.mem_filter.mp hclf).1
    obtain ⟨ht0, ht1⟩ := hTol cl hclmem
    by_cases hs : t1 ≤ c.offset + cl.offset
    · rw [if_pos hs]
      simp only [WaveClip.offset_Offset]
      rw [show c.offset + (cl.offset + (t0 - t1)) - t0 =
        c.offset + cl.offset - t1 by ring]
      exact not_lt.mpr ht1
    · rw [if_neg hs]
      exact not_lt.mpr ht0
  have hfind := findCutlineIdx_concat c.offset t0 _
    ((c.copyRange t0 t1).SetOffset (t0 - c.offset)) hrem hnew
  constructor
  · rw [hC]
    simp only [WaveClip.cutLines_mk, WaveClip.offset_mk,
      List.getLast?_concat, Option.map_some']
    rw [hnewoff]
    rw [show c.offset + (t0 - c.offset) = t0 by ring]
  · rw [hC]
    simp only [WaveClip.ExpandCutLine, WaveClip.offset_mk,
      WaveClip.cutLines_mk, hfind, List.get?_concat_length,
      WaveClip.sequence_mk]
    rw [WaveClip.sequence_Paste]
    simp only [WaveClip.sequence_mk, WaveClip.sequence_SetOffset,
      WaveClip.sequence_copyRange]
    rw [hnewoff, show c.offset + (t0 - c.offset) = t0 by ring]
    have hns : c.GetNumSamples = (c.sequence.length : ℤ) := rfl
    rw [WaveClip.tts_shrunk c
      (WaveClip.mk c.offset c.rate
        (Sequence.Delete c.sequence (c.TimeToSamplesClip t0)
          (c.TimeToSamplesClip t1 - c.TimeToSamplesClip t0))
        c.appendBuffer
        (((c.cutLines.filter fun cl =>
            !decide (t0 ≤ c.offset + cl.offset ∧ c.offset + cl.offset ≤ t1)).map
          fun cl => if t1 ≤ c.offset + cl.offset then cl.Offset (t0 - t1)
            else cl)
          ++ [(c.copyRange t0 t1).SetOffset (t0 - c.offset)])
        c.colourIndex)
      t0 t1 h1 (by simp) (by simp)
      (by
        simp only [WaveClip.GetNumSamples, WaveClip.sequence_mk]
        omega) h2' h3]
    exact paste_delete_copy c.sequence (c.TimeToSamplesClip t0)
      (c.TimeToSamplesClip t1) hs0 hs01 hs1n

/-- Witness for the amended C2 on a cut-line-free 4-sample clip with the
range `[1, 2]`. -/
theorem clear_cutline_roundtrip_witness :
    (((WaveClip.mk 0 1 [1, 2, 3, 4] [] [] 0).ClearAndAddCutLine 1 2).1.cutLines.getLast?.map
      (fun cl => ((WaveClip.mk 0 1 [1, 2, 3, 4] [] [] 0).ClearAndAddCutLine 1 2).1.offset + cl.offset))
      = some 1 ∧
    (((WaveClip.mk 0 1 [1, 2, 3, 4] [] [] 0).ClearAndAddCutLine 1 2).1.ExpandCutLine 1).sequence
      = (WaveClip.mk 0 1 [1, 2, 3, 4] [] [] 0).sequence :=
  clear_cutline_roundtrip (WaveClip.mk 0 1 [1, 2, 3, 4] [] [] 0) 1 2
    (by decide) (by with_unfolding_all decide) (by norm_num)
    (by with_unfolding_all decide) (by simp)

end Audacity
